import Mathlib

/-!
Shallow embedding of `src/templater.js` (auto-templater): the DSL parser
(`Parser`), the graph builder (`Resolver.buildResolver`) and the leveled
executor (`ResolverExecutor.execute`), together with theorems checking the
specification's claims against this embedding.

Conventions of the embedding:
* JS `Map<string, T>` and plain string-keyed objects are modelled as
  insertion-ordered association lists (`JMap`): `set` replaces the value in
  place when the key exists (keeping its position) and appends otherwise,
  exactly like `Map.prototype.set` / property assignment; iteration order is
  the list order, like JS insertion order.
* JS runtime values flowing through the resolver
  (`string | string[] | undefined`, the declared `ResolverAvailableTypes`)
  are the inductive `Value`; a missing object property reads as
  `Value.undefined`, like JS `undefined`.
* Thrown JS errors are the inductive `JsError`: `TemplaterError`,
  `TypingError` (carrying the provider name and field that the real message
  interpolates), `SystemError`, and `generic` for any other runtime error
  (e.g. a `TypeError` from touching a property of `undefined`).
* Asynchronous provider callbacks are modelled as pure functions returning
  `Except JsError`.  All groups of one level read the value record as it was
  when the level started (the JS code builds every group's argument records
  synchronously before awaiting), distinct groups of a level write disjoint
  variable sets, and `Set` deletions commute, so the sequential fold used
  here yields exactly the observable outcome of the concurrent original.
-/

/-- Insertion-ordered association list with string keys: the model of a JS
`Map<string, α>` / string-keyed object. -/
abbrev JMap (α : Type) := List (String × α)

/-- Lookup, like `Map.prototype.get` (or property access): first (= only,
since `set` never duplicates keys) entry with the key. -/
def JMap.get {α : Type} (m : JMap α) (k : String) : Option α :=
  (m.find? (fun p => decide (p.1 = k))).map (·.2)

/-- Update preserving insertion order, like `Map.prototype.set`: replaces the
value in place when the key exists, appends a fresh entry otherwise. -/
def JMap.set {α : Type} (m : JMap α) (k : String) (v : α) : JMap α :=
  match m with
  | [] => [(k, v)]
  | (k', v') :: rest =>
    if k' = k then (k, v) :: rest else (k', v') :: JMap.set rest k v

/-- JS `Object.assign(m, u)` / object spread: fold `set` over the updates. -/
def JMap.assign {α : Type} (m u : JMap α) : JMap α :=
  u.foldl (fun acc p => acc.set p.1 p.2) m

/-- Runtime values of the resolver: the declared
`ResolverAvailableTypes = string | string[] | undefined`. -/
inductive Value : Type where
  | str (s : String)
  | arrStr (xs : List String)
  | undefined
deriving DecidableEq, Repr

/-- Property read defaulting to `undefined`, like `obj[k]` in JS. -/
def JMap.getV (m : JMap Value) (k : String) : Value :=
  (m.get k).getD .undefined

/-- Errors thrown by the JS code. -/
inductive JsError : Type where
  | templater (msg : String)
  | typing (serviceName : String) (field : String)
  | system
  | generic
deriving DecidableEq, Repr

/-- A `Dependency` of a service instance (`types.d.ts`): in the parser both
`key` and `name` are set to the argument name. -/
structure Dependency : Type where
  key : String
  name : String
  variableName : String
deriving DecidableEq, Repr

/-- A `Service` instance (`types.d.ts`): `key` is the `@identifier`, `name`
the provider name. -/
structure Service : Type where
  key : String
  name : String
  dependencies : List Dependency
deriving DecidableEq, Repr

/-- A parsed variable descriptor: `VariableConst` or `VariableRef`. -/
inductive Variable : Type where
  | const (constant : String)
  | ref (fieldKey : String) (service : String)
deriving DecidableEq, Repr

/-- The `ResolverContext` the parser fills: the variable table and the
service-instance table. -/
structure ResolverContext : Type where
  vars : JMap Variable
  services : JMap Service
deriving DecidableEq, Repr

/-- ResolverContext.registVariable. -/
def ResolverContext.registVariable (ctx : ResolverContext) (key : String)
    (v : Variable) : ResolverContext :=
  { ctx with vars := ctx.vars.set key v }

/-- ResolverContext.registService. -/
def ResolverContext.registService (ctx : ResolverContext) (key : String)
    (providerName : String) (dependencies : List Dependency) :
    ResolverContext :=
  { ctx with services :=
      ctx.services.set key ⟨key, providerName, dependencies⟩ }

/-- Basic lemmas about `JMap`. -/
theorem JMap.get_set_self {α : Type} (m : JMap α) (k : String) (v : α) :
    (m.set k v).get k = some v := by
  induction m with
  | nil => simp [JMap.set, JMap.get, List.find?]
  | cons hd tl ih =>
    by_cases h : hd.1 = k
    · simp [JMap.set, h, JMap.get, List.find?]
    · simp only [JMap.set]
      rw [show (hd.1, hd.2) = hd from rfl] at *
      simp only [if_neg h]
      simpa [JMap.get, List.find?, h] using ih

theorem JMap.get_set_ne {α : Type} (m : JMap α) (k k' : String) (v : α)
    (h : k ≠ k') : (m.set k v).get k' = m.get k' := by
  induction m with
  | nil => simp [JMap.set, JMap.get, List.find?, h]
  | cons hd tl ih =>
    by_cases hh : hd.1 = k
    · simp [JMap.set, hh, JMap.get, List.find?, h]
    · simp only [JMap.set]
      rw [show (hd.1, hd.2) = hd from rfl] at *
      simp only [if_neg hh]
      by_cases hk' : hd.1 = k'
      · simp [JMap.get, List.find?, hk']
      · simpa [JMap.get, List.find?, hk'] using ih

/-- Character classes used by the DSL's regular expressions. -/
def isWsChar (c : Char) : Bool :=
  decide (c = ' ') || decide (c = '\t') || decide (c = '\n') ||
  decide (c = '\r') || decide (c = '\x0b') || decide (c = '\x0c')

def isLowerChar (c : Char) : Bool := decide ('a' ≤ c) && decide (c ≤ 'z')

def isLowerUChar (c : Char) : Bool := isLowerChar c || decide (c = '_')

def isUpperChar (c : Char) : Bool := decide ('A' ≤ c) && decide (c ≤ 'Z')

def isLetterChar (c : Char) : Bool := isLowerChar c || isUpperChar c

/-- JS `String.prototype.trim` (the inputs here are ASCII). -/
def jsTrimChars (l : List Char) : List Char :=
  ((l.dropWhile isWsChar).reverse.dropWhile isWsChar).reverse

/-- JS `text.split(sep)` for a one-character separator (keeps empty pieces). -/
def splitCharAux (sep : Char) : List Char → List Char → List (List Char)
  | [], acc => [acc.reverse]
  | c :: rest, acc =>
    if c = sep then acc.reverse :: splitCharAux sep rest []
    else splitCharAux sep rest (c :: acc)

/-- JS `parts.join(sep)` for a one-character separator. -/
def joinChar (sep : Char) : List (List Char) → List Char
  | [] => []
  | [x] => x
  | x :: xs => x ++ sep :: joinChar sep xs

/-- JS `lines.join("\n")`. -/
def joinStrNl : List String → String
  | [] => ""
  | [x] => x
  | x :: xs => x ++ "\n" ++ joinStrNl xs

/-- `text.split(REGEXP_NEW_LINE)` with `REGEXP_NEW_LINE = /\r?\n/`. -/
def splitLinesAux : List Char → List Char → List (List Char)
  | [], acc => [acc.reverse]
  | '\r' :: '\n' :: rest, acc => acc.reverse :: splitLinesAux rest []
  | '\n' :: rest, acc => acc.reverse :: splitLinesAux rest []
  | c :: rest, acc => splitLinesAux rest (c :: acc)

/-- `REGEXP_LINE_COMMENT = /^[ \t]*\/\//` as a test. -/
def testLineComment (l : List Char) : Bool :=
  match l.dropWhile (fun c => decide (c = ' ') || decide (c = '\t')) with
  | '/' :: '/' :: _ => true
  | _ => false

/-- `REGEXP_LINE_EMPTY = /^[ \t]*$/` as a test. -/
def testLineEmpty (l : List Char) : Bool :=
  l.all (fun c => decide (c = ' ') || decide (c = '\t'))

/-- Test of `REGEXP_LINE_CARRY = /\\\s*$/`: a trailing backslash followed
only by whitespace. -/
def testCarry (l : List Char) : Bool :=
  match l.reverse.dropWhile isWsChar with
  | '\\' :: _ => true
  | _ => false

/-- `lineBuild.replace(REGEXP_LINE_CARRY, "")`: removes the last backslash
together with the whitespace behind it, when only whitespace follows it. -/
def stripCarry (l : List Char) : List Char :=
  match l.reverse.dropWhile isWsChar with
  | '\\' :: rest => rest.reverse
  | _ => l

/-- `REGEXP_HEAD_DATA = /^#data\s*$/` as a test. -/
def matchHeadData (l : List Char) : Bool :=
  "#data".data.isPrefixOf l && (l.drop 5).all isWsChar

/-- Matches `[a-z][a-z_]+` greedily (two or more characters); returns the
name and the rest. -/
def matchLowerName2 (l : List Char) : Option (List Char × List Char) :=
  match l with
  | c :: rest =>
    if isLowerChar c then
      let nm := rest.takeWhile isLowerUChar
      if nm = [] then none else some (c :: nm, rest.dropWhile isLowerUChar)
    else none
  | [] => none

/-- `REGEXP_HEAD_VIEW.exec`: returns the view name and the optional render
mode of a `#view(name)[mode]` heading. -/
def matchHeadView (l : List Char) : Option (String × Option String) :=
  if "#view(".data.isPrefixOf l then
    match matchLowerName2 (l.drop 6) with
    | some (nm, r1) =>
      match r1 with
      | ')' :: '[' :: r3 =>
        match matchLowerName2 r3 with
        | some (md, r4) =>
          match r4 with
          | ']' :: r5 => if r5.all isWsChar then some (⟨nm⟩, some ⟨md⟩) else none
          | _ => none
        | none => none
      | ')' :: r2 => if r2.all isWsChar then some (⟨nm⟩, none) else none
      | _ => none
    | none => none
  else none

/-- `REGEXP_STRING_LITERAL = /^'.*'$/` as a test (`.` does not match line
terminators). -/
def matchStringLiteral (l : List Char) : Bool :=
  match l with
  | '\'' :: rest =>
    match rest.getLast? with
    | some c =>
      decide (c = '\'') &&
        rest.dropLast.all (fun ch => decide (ch ≠ '\n') && decide (ch ≠ '\r'))
    | none => false
  | _ => false

/-- `REGEXP_IDENTIFIER = /^[@$][a-z][a-z_]*$/` as a test. -/
def isIdentifierChars : List Char → Bool
  | s :: c :: rest =>
    (decide (s = '@') || decide (s = '$')) && isLowerChar c &&
      rest.all isLowerUChar
  | _ => false

/-- `REGEXP_INTERNAL_IDENTIFIER = /^[@$]internal_/` as a test. -/
def isInternalChars : List Char → Bool
  | s :: rest =>
    (decide (s = '@') || decide (s = '$')) && "internal_".data.isPrefixOf rest
  | [] => false

/-- The zero-or-more `(@[a-z][a-z_]*)*` repetitions of `REGEXP_VARIABLE`;
returns the list of repetitions (each including its `@`).  The fuel is an
upper bound on the number of repetitions; the callers pass the input length,
which suffices because every repetition consumes at least two characters. -/
def matchVarReps : Nat → List Char → Option (List (List Char))
  | _, [] => some []
  | 0, _ => none
  | fuel + 1, l =>
    match l with
    | '@' :: c :: rest =>
      if isLowerChar c then
        let nm := rest.takeWhile isLowerUChar
        (matchVarReps fuel (rest.dropWhile isLowerUChar)).map
          (fun reps => ('@' :: c :: nm) :: reps)
      else none
    | _ => none

/-- `REGEXP_VARIABLE.exec`: returns the field key (group 1) and the last
`@service` repetition (group 2, `undefined` when the repetition matched zero
times). -/
def matchVariable (l : List Char) : Option (String × Option String) :=
  match l with
  | c :: rest =>
    if isLowerChar c then
      let key := c :: rest.takeWhile isLowerUChar
      let r1 := (rest.dropWhile isLowerUChar).dropWhile (fun ch => decide (ch = ' '))
      match r1 with
      | '<' :: '-' :: r2 =>
        match matchVarReps r2.length (r2.dropWhile (fun ch => decide (ch = ' '))) with
        | some reps => some (⟨key⟩, (reps.getLast?).map (fun rep => (⟨rep⟩ : String)))
        | none => none
      | _ => none
    else none
  | [] => none

/-- One `argName = $variableName; *` entry of `REGEXP_SERVICE`; returns the
rest after the entry's trailing spaces. -/
def parseArgEntry (l : List Char) : Option (List Char) :=
  match l with
  | c :: rest =>
    if isLowerChar c then
      let r2 := (rest.dropWhile isLowerUChar).dropWhile (fun ch => decide (ch = ' '))
      match r2 with
      | '=' :: r3 =>
        match r3.dropWhile (fun ch => decide (ch = ' ')) with
        | '$' :: c2 :: r5 =>
          if isLowerChar c2 then
            match r5.dropWhile isLowerUChar with
            | ';' :: r7 => some (r7.dropWhile (fun ch => decide (ch = ' ')))
            | _ => none
          else none
        | _ => none
      | _ => none
    else none
  | [] => none

/-- The `(entry)+ *}` tail of `REGEXP_SERVICE`'s brace group: one or more
entries, then the closing brace, which must end the input.  Fuel as in
`matchVarReps`; callers pass the input length. -/
def matchArgEntriesLoop : Nat → List Char → Bool
  | 0, _ => false
  | fuel + 1, l =>
    match parseArgEntry l with
    | none => false
    | some r => if r = ['}'] then true else matchArgEntriesLoop fuel r

/-- The optional brace group `({ ... })?` of `REGEXP_SERVICE`, which must
extend to the end of the input. -/
def matchesArgsGroup (l : List Char) : Bool :=
  match l with
  | '{' :: rest =>
    matchArgEntriesLoop (rest.length + 1)
      (rest.dropWhile (fun ch => decide (ch = ' ')))
  | _ => false

/-- `REGEXP_SERVICE.exec`: returns the provider name (group 1) and the brace
group text (group 2, `undefined` when absent). -/
def matchService (l : List Char) : Option (String × Option String) :=
  match l with
  | c :: rest =>
    if isUpperChar c then
      let nm := rest.takeWhile isLetterChar
      if nm = [] then none
      else
        let r2 := (rest.dropWhile isLetterChar).dropWhile (fun ch => decide (ch = ' '))
        if r2 = [] then some (⟨c :: nm⟩, none)
        else if matchesArgsGroup r2 then some (⟨c :: nm⟩, some ⟨r2⟩)
        else none
    else none
  | [] => none

/-- Parser.parseDataServiceDependencies: re-parses the captured brace text by
string splitting.  On text produced by a successful `REGEXP_SERVICE` match
every entry contains an `=`; the `headD` defaults are never exercised there
(JS would crash on a missing piece). -/
def parseDataServiceDependencies (text : List Char) : List Dependency :=
  let inner := (text.drop 1).dropLast
  let parts := (splitCharAux ';' inner []).dropLast
  parts.map (fun assign =>
    let kv := (splitCharAux '=' assign []).map jsTrimChars
    let key : String := ⟨kv.headD []⟩
    let value : List Char := (kv.drop 1).headD []
    ⟨key, key, ⟨value.drop 1⟩⟩)

/-- Parser.parseDataSeviceLine: registers the service when `REGEXP_SERVICE`
matches and silently returns (registering nothing) otherwise. -/
def parseDataSeviceLine (ctx : ResolverContext) (name : String)
    (line : List Char) : Except JsError ResolverContext :=
  match matchService line with
  | some (providerName, args) =>
    let dependencies :=
      match args with
      | some a => parseDataServiceDependencies a.data
      | none => []
    .ok (ctx.registService name providerName dependencies)
  | none => .ok ctx

/-- Parser.parseDataVariableLine: string literal, reference, or alias copy of
an already defined variable; otherwise a `TemplaterError`.  A match of
`REGEXP_VARIABLE` with zero `@service` repetitions makes the JS code call
`undefined.slice(1)`, a `TypeError`, modelled by `JsError.generic`. -/
def parseDataVariableLine (ctx : ResolverContext) (name : String)
    (line : List Char) : Except JsError ResolverContext :=
  if matchStringLiteral line then
    .ok (ctx.registVariable name (.const ⟨(line.drop 1).dropLast⟩))
  else
    match matchVariable line with
    | some (key, some service) =>
      .ok (ctx.registVariable name (.ref key ⟨service.data.drop 1⟩))
    | some (_, none) => .error .generic
    | none =>
      match ctx.vars.get ⟨(jsTrimChars line).drop 1⟩ with
      | some aliasVariable => .ok (ctx.registVariable name aliasVariable)
      | none =>
        .error (.templater ("invalid variable name \"" ++ (⟨line⟩ : String) ++ "\""))

/-- Parser.parseDataLine: splits at `=`, validates the identifier, and
dispatches on the `@`/`$` sigil. -/
def parseDataLine (ctx : ResolverContext) (line : List Char) :
    Except JsError ResolverContext :=
  let parts := splitCharAux '=' line []
  let key := parts.headD []
  let assigns := parts.drop 1
  let id := jsTrimChars key
  let assign := jsTrimChars (joinChar '=' assigns)
  if ! isIdentifierChars id then
    .error (.templater ("invalid variable name \"" ++ (⟨id⟩ : String) ++ "\""))
  else if isInternalChars id then
    .error (.templater
      ("prefix \"internal_\" is not publicly available - \"" ++ (⟨id⟩ : String) ++ "\""))
  else
    let name : String := ⟨id.drop 1⟩
    if id.headD ' ' = '@' then parseDataSeviceLine ctx name assign
    else parseDataVariableLine ctx name assign

/-- The logical-line assembly of Parser.parseDataRegion: comment and blank
lines are dropped, trailing-backslash lines are continued. -/
def prepareDataLines (lines : List String) : List (List Char) :=
  let step := fun (st : List (List Char) × List Char) (line : String) =>
    if testLineComment line.data || testLineEmpty line.data then st
    else
      let lineBuild := st.2 ++ jsTrimChars line.data
      if ! testCarry line.data then (st.1 ++ [lineBuild], ([] : List Char))
      else (st.1, stripCarry lineBuild)
  let fin := lines.foldl step ([], [])
  if fin.2 ≠ [] then fin.1 ++ [fin.2] else fin.1

/-- Parser.parseDataRegion. -/
def parseDataRegion (ctx : ResolverContext) (texts : List String) :
    Except JsError ResolverContext :=
  let head := texts.headD ""
  if ! matchHeadData head.data then
    .error (.templater
      ("after the heading @data there should be no non-whitespace characters - \""
        ++ head ++ "\""))
  else
    (prepareDataLines texts.tail).foldlM
      (fun c l => parseDataLine c (jsTrimChars l)) ctx

/-- A parsed `#view` region. -/
structure ViewRegion : Type where
  name : String
  render : String
  text : String
deriving DecidableEq, Repr

/-- Parser.parseViewRegion. -/
def parseViewRegion (texts : List String) : Except JsError ViewRegion :=
  let head := texts.headD ""
  match matchHeadView head.data with
  | none =>
    .error (.templater ("incorrect title for @view region - \"" ++ head ++ "\""))
  | some (name, render) =>
    .ok ⟨name, render.getD "default", joinStrNl texts.tail⟩

/-- Parser.parseViewRegions: parse every region, then key the results by
view name (a later region with the same name overwrites the earlier one). -/
def parseViewRegions (regions : List (List String)) :
    Except JsError (JMap ViewRegion) := do
  let parsed ← regions.mapM parseViewRegion
  return parsed.foldl (fun records p => records.set p.name p) []

/-- Parser.findIndexTag: first line at or after `fromIdx` starting with the
tag. -/
def findIndexTag (lines : List String) (tag : String) (fromIdx : Nat) :
    Option Nat :=
  ((lines.enum.drop fromIdx).find? (fun p => tag.data.isPrefixOf p.2.data)).map (·.1)

/-- Parser.findIndexDataTag: the unique `#data` heading. -/
def findIndexDataTag (lines : List String) : Except JsError Nat :=
  match findIndexTag lines "#data" 0 with
  | none => .error (.templater "required region #data not found")
  | some i =>
    match findIndexTag lines "#data" (i + 1) with
    | some _ => .error (.templater "region @#data announced several times")
    | none => .ok i

/-- Parser.findIndexesViewTag: every `#view` heading index, ascending. -/
def findIndexesViewTag (lines : List String) : Except JsError (List Nat) :=
  let idxs := lines.enum.filterMap
    (fun p => if "#view".data.isPrefixOf p.2.data then some p.1 else none)
  if idxs = [] then .error (.templater "no regions found with the tag #view")
  else .ok idxs

/-- Parser.splitesViewsRegions. -/
def splitesViewsRegions (lines : List String) (indexes : List Nat) :
    List (List String) :=
  let withEnd := indexes ++ [lines.length]
  (withEnd.zip withEnd.tail).map (fun p => (lines.take p.2).drop p.1)

/-- Parser.splitRegions. -/
def splitRegions (text : String) :
    Except JsError (List String × List (List String)) := do
  let lines := (splitLinesAux text.data []).map (fun l => (⟨l⟩ : String))
  let regionDataIndex ← findIndexDataTag lines
  let regionViewIndexes ← findIndexesViewTag lines
  let firstView := regionViewIndexes.headD 0
  if firstView < regionDataIndex then
    .error (.templater "region #view must be after region #data")
  else
    .ok ((lines.take firstView).drop regionDataIndex,
      splitesViewsRegions lines regionViewIndexes)

/-- Parser.parse: split the regions, parse the views, then the data region;
the first thrown error aborts the parse. -/
def Parser.parse (text : String) :
    Except JsError (JMap ViewRegion × ResolverContext) := do
  let (data, views) ← splitRegions text
  let regions ← parseViewRegions views
  let ctx ← parseDataRegion ⟨[], []⟩ data
  return (regions, ctx)

/-- A registered provider (`ResolverValue`): its declared argument model
(argument name to allowed kind names, the strings "string" / "string[]") and
its batch callback, modelled as a pure function from the ordered batch of
argument records to either a thrown error or the ordered batch of output
records. -/
structure ResolverValue : Type where
  argsModel : JMap (List String)
  callback : List (JMap Value) → Except JsError (List (JMap Value))

/-- The provider registry (`Resolver._resolvers`). -/
abbrev Registry := JMap ResolverValue

/-- SYSTEM_SERVICE. -/
def SYSTEM_SERVICE : List String := ["Arguments"]

/-- Resolver.create: a registry seeded with the reserved system providers,
whose callbacks throw `SystemError` when actually invoked. -/
def createResolver : Registry :=
  SYSTEM_SERVICE.map (fun name =>
    (name, ⟨[], fun _ => .error .system⟩))

/-- Resolver._isSystemResolverName. -/
def isSystemResolverName (name : String) : Bool :=
  SYSTEM_SERVICE.any (fun sys => decide (sys = name))

/-- Resolver.registService (with `_validateSystemResolver`). -/
def registService (reg : Registry) (name : String) (resolver : ResolverValue) :
    Except JsError Registry :=
  if isSystemResolverName name then
    .error (.templater ("service \"" ++ name ++ "\" system and cannot be registered"))
  else .ok (reg.set name resolver)

/-- Resolver._validateAvailabilityServices: every used provider name must be
registered or reserved; returns the first offending name's error. -/
def validateAvailabilityServices (reg : Registry) (services : JMap Service) :
    Option JsError :=
  (services.find? (fun p =>
      !((reg.get p.2.name).isSome || isSystemResolverName p.2.name))).map
    (fun p => .templater ("service \"" ++ p.2.name ++ "\" has no implementation"))

/-- Resolver._validateServiceProvideNames: every argument declared by any
registered provider's model must be supplied by some service instance using
that provider. -/
def validateServiceProvideNames (reg : Registry) (services : JMap Service) :
    Option JsError :=
  let supplied := services.foldl (fun acc p =>
    p.2.dependencies.foldl (fun a d => a ++ [p.2.name ++ "." ++ d.name]) acc) []
  (reg.findSome? (fun r =>
    r.2.argsModel.findSome? (fun a =>
      if supplied.contains (r.1 ++ "." ++ a.1) then none
      else some (JsError.templater
        ("missing required parameter \"" ++ a.1 ++ "\" in service \"" ++ r.1 ++ "\"")))))

/-- Whether a dependency's target variable is Reference-typed (a lookup miss
or a constant both count as non-reference, like `?.type === "ref"`). -/
def isReferenceDependency (vars : JMap Variable) (variableName : String) : Bool :=
  match vars.get variableName with
  | some (.ref _ _) => true
  | _ => false

/-- Resolver._calculateRootServices: service instances with zero
Reference-typed dependencies, in table order. -/
def calculateRootServices (ctx : ResolverContext) : JMap Service :=
  ctx.services.filter (fun p =>
    (p.2.dependencies.countP
      (fun d => isReferenceDependency ctx.vars d.variableName)) = 0)

/-- Resolver._calculateChildrenServices: for every Reference variable, the
service it names is a child of every service named by a Reference variable
among its dependencies.  A Reference variable naming an undeclared service
makes the JS code read `undefined.dependencies`, a `TypeError` thrown while
building (modelled by `JsError.generic`). -/
def calculateChildrenServices (ctx : ResolverContext) :
    Except JsError (JMap (JMap Service)) :=
  ctx.vars.foldlM (fun childrenServices p =>
    match p.2 with
    | .const _ => .ok childrenServices
    | .ref _ childServiceName =>
      match ctx.services.get childServiceName with
      | none => .error .generic
      | some childService =>
        .ok (childService.dependencies.foldl (fun cs d =>
          match ctx.vars.get d.variableName with
          | some (.ref _ parentServiceName) =>
            let parentMap := (cs.get parentServiceName).getD []
            let childMap := (cs.get childServiceName).getD []
            (cs.set parentServiceName
              (parentMap.set childServiceName childService)).set
              childServiceName childMap
          | _ => cs) childrenServices)) []

/-- Resolver._calculateQueueResolving: level 0 is the roots, level k+1 the
children of level k, until the frontier is empty.  The JS `while` loop
diverges on a cyclic graph (see spec section 9); the fuel makes the model
total, and `buildResolver` passes `services.length + 1`, enough for every
acyclic graph, whose level count is bounded by the number of services. -/
def calculateQueueResolving : Nat → JMap (JMap Service) → JMap Service →
    List (List Service)
  | 0, _, _ => []
  | fuel + 1, childrenServices, services =>
    if services.isEmpty then []
    else
      let queue := services.map (·.2)
      let nextServices := services.foldl (fun (acc : JMap Service) p =>
        match childrenServices.get p.1 with
        | none => acc
        | some childs => childs.foldl (fun (a : JMap Service) c => a.set c.1 c.2) acc)
        ([] : JMap Service)
      queue :: calculateQueueResolving fuel childrenServices nextServices

/-- The loop body of groupByField(arr, "name"): push onto the existing group
or open a fresh one at the end. -/
def groupByStep (result : JMap (List Service)) (item : Service) :
    JMap (List Service) :=
  if (result.get item.name).isSome then
    result.set item.name (((result.get item.name).getD []) ++ [item])
  else result ++ [(item.name, [item])]

/-- groupByField(arr, "name"): groups by provider name, preserving both the
first-occurrence order of names and the order inside each group. -/
def groupByField (arr : List Service) : JMap (List Service) :=
  arr.foldl groupByStep ([] : JMap (List Service))

/-- One level of the execution plan: its queue and the same queue grouped by
provider name. -/
structure QueueLevel : Type where
  queue : List Service
  queueGrouped : JMap (List Service)
deriving Repr

/-- Everything `buildResolver` hands the `ResolverExecutor`. -/
structure BuiltExecutor : Type where
  resolvers : Registry
  variableBase : JMap Value
  serviceModels : JMap (JMap (List String))
  queueResolving : List QueueLevel
  childrenServices : JMap (JMap Service)

/-- The `variableBase` loop of Resolver.buildResolver: constants seed the
base record. -/
def calcVariableBase (vars : JMap Variable) : JMap Value :=
  vars.foldl (fun base p =>
    match p.2 with
    | .const c => base.set p.1 (.str c)
    | .ref _ _ => base) []

/-- The `serviceModels` loop of Resolver.buildResolver: for every Reference
variable, its owning service's model maps the field key to the list of
variable names populated from that field. -/
def calcServiceModels (vars : JMap Variable) : JMap (JMap (List String)) :=
  vars.foldl (fun serviceModels p =>
    match p.2 with
    | .const _ => serviceModels
    | .ref fieldKey service =>
      let model := (serviceModels.get service).getD []
      serviceModels.set service
        (model.set fieldKey (((model.get fieldKey).getD []) ++ [p.1]))) []

/-- Resolver.buildResolver: static validation, then roots, children, levels,
grouping, and the constant/model tables. -/
def buildResolver (reg : Registry) (ctx : ResolverContext) :
    Except JsError BuiltExecutor :=
  match validateAvailabilityServices reg ctx.services with
  | some e => .error e
  | none =>
    match validateServiceProvideNames reg ctx.services with
    | some e => .error e
    | none =>
      let rootServices := calculateRootServices ctx
      match calculateChildrenServices ctx with
      | .error e => .error e
      | .ok childrenServices =>
        let queueResolving := calculateQueueResolving
          (ctx.services.length + 1) childrenServices rootServices
        .ok
          { resolvers := reg
            variableBase := calcVariableBase ctx.vars
            serviceModels := calcServiceModels ctx.vars
            queueResolving :=
              queueResolving.map (fun queue => ⟨queue, groupByField queue⟩)
            childrenServices := childrenServices }

/-- typeof value === "string". -/
def isString : Value → Bool
  | .str _ => true
  | _ => false

/-- Array.isArray(value) && value.every(isString) (array elements are
strings by the `ResolverAvailableTypes` contract). -/
def isArrayStrings : Value → Bool
  | .arrStr _ => true
  | _ => false

/-- The validator built inside ResolverExecutor._resolve: for every argument
name of the model, the record's value is checked against the declared kind
set with `if (types.has("string")) ... else if (types.has("string[]")) ...`;
the first failing name throws a `TypingError` naming `services[0].name` (the
provider name) and the argument. -/
def validateRecord (serviceName : String) (argsModel : JMap (List String))
    (record : JMap Value) : Option JsError :=
  argsModel.findSome? (fun p =>
    let types := p.2
    let result :=
      if types.contains "string" then isString (record.getV p.1)
      else if types.contains "string[]" then isArrayStrings (record.getV p.1)
      else false
    if result then none else some (.typing serviceName p.1))

/-- The argument record of one service instance: each declared dependency's
argument name is assigned the dependency variable's current value. -/
def buildArgsRecord (varRec : JMap Value) (svc : Service) : JMap Value :=
  svc.dependencies.foldl (fun (args : JMap Value) d =>
    args.set d.name (varRec.getV d.variableName)) []

/-- The `services.map(...)` argument of the callback call in
ResolverExecutor._resolve: argument records are built in batch order and each
is validated right after it is built, so the first validation failure throws
before the callback is ever invoked. -/
def buildArgs (serviceName : String) (argsModel : JMap (List String))
    (varRec : JMap Value) : List Service → Except JsError (List (JMap Value))
  | [] => .ok []
  | svc :: rest =>
    let args := buildArgsRecord varRec svc
    match validateRecord serviceName argsModel args with
    | some e => .error e
    | none => (buildArgs serviceName argsModel varRec rest).map (args :: ·)

/-- Decidable equality of settled results. -/
instance exceptDecEq {e a : Type} [DecidableEq e] [DecidableEq a] :
    DecidableEq (Except e a) := fun x y =>
  match x, y with
  | .ok u, .ok v =>
    if h : u = v then .isTrue (by rw [h]) else .isFalse (by simp [h])
  | .error u, .error v =>
    if h : u = v then .isTrue (by rw [h]) else .isFalse (by simp [h])
  | .ok _, .error _ => .isFalse (by simp)
  | .error _, .ok _ => .isFalse (by simp)

/-- One observed provider invocation: the provider name and the batch of
argument records it was called with. -/
structure TraceEntry : Type where
  provider : String
  batch : List (JMap Value)
deriving DecidableEq, Repr

/-- The `updateVarialbes` loop of ResolverExecutor._resolve: the i-th service
instance's output record is distributed through that instance's own
field-to-variable-names model.  A missing model entry makes the JS code call
`Object.keys(undefined)` (a `TypeError`); a missing output record crashes the
same way unless the model is empty. -/
def buildUpdates (serviceModels : JMap (JMap (List String))) :
    List Service → List (JMap Value) → JMap Value → Except JsError (JMap Value)
  | [], _, upd => .ok upd
  | svc :: rest, results, upd =>
    match serviceModels.get svc.key with
    | none => .error .generic
    | some model =>
      match results with
      | record :: rs =>
        let upd := model.foldl (fun (u : JMap Value) p =>
          p.2.foldl (fun (u2 : JMap Value) toName => u2.set toName (record.getV p.1)) u) upd
        buildUpdates serviceModels rest rs upd
      | [] =>
        if model.isEmpty then buildUpdates serviceModels rest [] upd
        else .error .generic

/-- ResolverExecutor._resolve for one provider group, instrumented with the
trace of the callback invocation it performs (the invocation happens exactly
when the argument batch was built without a validation failure).  A `none`
resolver (an unregistered name reaching execution) crashes while destructuring
in JS, modelled by `JsError.generic` with no invocation. -/
def runGroup (name : String) (rv : Option ResolverValue)
    (serviceModels : JMap (JMap (List String))) (svcs : List Service)
    (varRec : JMap Value) :
    List TraceEntry × Except JsError (JMap Value) :=
  match rv with
  | none => ([], .error .generic)
  | some r =>
    match buildArgs (((svcs.head?).map (·.name)).getD "") r.argsModel varRec svcs with
    | .error e => ([], .error e)
    | .ok argsList =>
      let trace := [⟨name, argsList⟩]
      match r.callback argsList with
      | .error e => (trace, .error e)
      | .ok results => (trace, buildUpdates serviceModels svcs results [])

/-- The outcome of one provider group inside a level: the filtered service
list the group ran with, the trace of its callback invocation, and its
settled result. -/
structure GroupRun : Type where
  filtered : List Service
  trace : List TraceEntry
  outcome : Except JsError (JMap Value)
deriving DecidableEq, Repr

/-- The per-group loop body of ResolverExecutor.execute for one level: every
provider-name group is filtered by the current candidate set and resolved.
All groups read the value record as it stood when the level began. -/
def runGroups (reg : Registry) (serviceModels : JMap (JMap (List String)))
    (varRec : JMap Value) (current : List Service)
    (groups : JMap (List Service)) : List GroupRun :=
  groups.map (fun g =>
    let fs := g.2.filter (fun s => current.contains s)
    ⟨fs, (runGroup g.1 (reg.get g.1) serviceModels fs varRec).1,
      (runGroup g.1 (reg.get g.1) serviceModels fs varRec).2⟩)

/-- The first `TypingError` outcome of a level, the error `Promise.all`
rejects with (rethrown by the `catch` handler). -/
def findTyping (runs : List GroupRun) : Option JsError :=
  runs.findSome? (fun r =>
    match r.outcome with
    | .error (.typing a b) => some (.typing a b)
    | _ => none)

/-- The `Object.assign(variable, result)` handlers of a level: every
successful group's updates are merged into the value record. -/
def applyOutcomes (varRec : JMap Value) (runs : List GroupRun) : JMap Value :=
  runs.foldl (fun v r =>
    match r.outcome with
    | .ok upd => v.assign upd
    | .error _ => v) varRec

/-- Whether an outcome takes the child-pruning branch of the `catch` handler:
any error that is neither a `TypingError` nor a `SystemError`. -/
def isPruneError : Except JsError (JMap Value) → Bool
  | .error (.typing _ _) => false
  | .error .system => false
  | .error _ => true
  | .ok _ => false

/-- The `nextQueue.delete` loop for one failed service instance: every direct
child recorded for it is removed from the next level's candidate set. -/
def deleteChildrenOf (childrenServices : JMap (JMap Service))
    (q : List Service) (t : Service) : List Service :=
  match childrenServices.get t.key with
  | none => q
  | some childServices =>
    childServices.foldl (fun (q2 : List Service) c =>
      q2.filter (fun x => decide (x ≠ c.2))) q

/-- The pruning a single group run performs on the next candidate set. -/
def pruneRun (childrenServices : JMap (JMap Service)) (q : List Service)
    (r : GroupRun) : List Service :=
  if isPruneError r.outcome then r.filtered.foldl (deleteChildrenOf childrenServices) q
  else q

/-- All pruning performed while a level settles. -/
def pruneNext (childrenServices : JMap (JMap Service)) (next : List Service)
    (runs : List GroupRun) : List Service :=
  runs.foldl (pruneRun childrenServices) next

/-- The concatenated invocation trace of a level, in group order. -/
def levelTrace (runs : List GroupRun) : List TraceEntry :=
  runs.foldl (fun t r => t ++ r.trace) []

/-- One iteration of the level loop in ResolverExecutor.execute: run every
group, rethrow the first `TypingError`, otherwise merge the successful
updates and prune the next candidate set. -/
def execLevel (reg : Registry) (serviceModels : JMap (JMap (List String)))
    (childrenServices : JMap (JMap Service)) (varRec : JMap Value)
    (current : List Service) (next : List Service)
    (groups : JMap (List Service)) :
    List TraceEntry × Except JsError (JMap Value × List Service) :=
  let runs := runGroups reg serviceModels varRec current groups
  (levelTrace runs,
    match findTyping runs with
    | some e => .error e
    | none => .ok (applyOutcomes varRec runs, pruneNext childrenServices next runs))

/-- The level loop of ResolverExecutor.execute: each level settles fully
before the next starts; a `TypingError` aborts the whole run; the loop stops
as soon as the next candidate set is empty. -/
def execLevelsTraced (reg : Registry)
    (serviceModels : JMap (JMap (List String)))
    (childrenServices : JMap (JMap Service)) :
    List QueueLevel → List Service → JMap Value → List TraceEntry →
    List TraceEntry × Except JsError (JMap Value)
  | [], _, varRec, tr => (tr, .ok varRec)
  | lvl :: rest, current, varRec, tr =>
    let next := ((rest.head?).map (·.queue)).getD []
    let (ltr, res) :=
      execLevel reg serviceModels childrenServices varRec current next
        lvl.queueGrouped
    match res with
    | .error e => (tr ++ ltr, .error e)
    | .ok (v, q) =>
      if q.length = 0 then (tr ++ ltr, .ok v)
      else execLevelsTraced reg serviceModels childrenServices rest q v (tr ++ ltr)

/-- ResolverExecutor.execute, instrumented with the invocation trace: the
value record starts as the constants overwritten by the caller's runtime
overrides, then the levels run in order. -/
def executeTraced (b : BuiltExecutor) (args : JMap Value) :
    List TraceEntry × Except JsError (JMap Value) :=
  let varRec := b.variableBase.assign args
  match b.queueResolving with
  | [] => ([], .ok varRec)
  | lvl :: _ =>
    execLevelsTraced b.resolvers b.serviceModels b.childrenServices
      b.queueResolving lvl.queue varRec []

/-- ResolverExecutor.execute: the observable result (resolved value record or
thrown error). -/
def execute (b : BuiltExecutor) (args : JMap Value) :
    Except JsError (JMap Value) :=
  (executeTraced b args).2

/-- The value the last write to `k` in an update list leaves behind (what an
`Object.assign` of the list ends up storing under `k`). -/
def JMap.lastVal {α : Type} : JMap α → String → Option α
  | [], _ => none
  | (k', v) :: t, k =>
    match JMap.lastVal t k with
    | some w => some w
    | none => if k' = k then some v else none

theorem JMap.get_set (m : JMap Value) (k k' : String) (v : Value) :
    (m.set k v).get k' = if k = k' then some v else m.get k' := by
  by_cases h : k = k'
  · subst h; simp [JMap.get_set_self]
  · simp [h, JMap.get_set_ne m k k' v h]

theorem JMap.get_assign {α : Type} (u : JMap α) (m : JMap α) (k : String) :
    (m.assign u).get k =
      match u.lastVal k with
      | some v => some v
      | none => m.get k := by
  induction u generalizing m with
  | nil => simp [JMap.assign, JMap.lastVal]
  | cons hd t ih =>
    show ((m.set hd.1 hd.2).assign t).get k = _
    rw [ih]
    cases htl : JMap.lastVal t k with
    | some w => simp [JMap.lastVal, htl]
    | none =>
      by_cases hk : hd.1 = k
      · subst hk; simp [JMap.lastVal, htl, JMap.get_set_self]
      · simp [JMap.lastVal, htl, hk, JMap.get_set_ne m hd.1 k hd.2 hk]

theorem JMap.get_append {α : Type} (m m' : JMap α) (k : String) :
    (m ++ m').get k =
      match m.get k with
      | some v => some v
      | none => m'.get k := by
  simp only [JMap.get, List.find?_append]
  cases h : m.find? (fun p => decide (p.1 = k)) <;> simp [Option.or]

theorem JMap.get_cons {α : Type} (hd : String × α) (t : JMap α) (k : String) :
    JMap.get (hd :: t) k = if hd.1 = k then some hd.2 else JMap.get t k := by
  by_cases hk : hd.1 = k <;> simp [JMap.get, List.find?, hk]

theorem JMap.get_eq_none_iff {α : Type} (m : JMap α) (k : String) :
    JMap.get m k = none ↔ ∀ p ∈ m, p.1 ≠ k := by
  induction m with
  | nil => simp [JMap.get]
  | cons hd t ih =>
    rw [JMap.get_cons]
    by_cases hk : hd.1 = k
    · simp only [hk, if_pos rfl]
      constructor
      · intro h; exact absurd h (by simp)
      · intro h; exact absurd hk (h hd (by simp))
    · simp only [if_neg hk, ih]
      constructor
      · intro h p hp
        rcases List.mem_cons.mp hp with he | ht
        · rw [he]; exact hk
        · exact h p ht
      · intro h p hp; exact h p (List.mem_cons_of_mem hd hp)

theorem JMap.keys_set_of_isSome {α : Type} (m : JMap α) (k : String) (v : α)
    (h : (JMap.get m k).isSome) : (m.set k v).map (·.1) = m.map (·.1) := by
  induction m with
  | nil => simp [JMap.get] at h
  | cons hd t ih =>
    rw [JMap.get_cons] at h
    by_cases hk : hd.1 = k
    · simp [JMap.set, hk]
    · have ht : (JMap.get t k).isSome := by simpa [hk] using h
      simp only [JMap.set]
      rw [show (hd.1, hd.2) = hd from rfl]
      simp [hk, ih ht]

theorem JMap.get_of_mem_nodup {α : Type} (m : JMap α) (P : String) (g : α)
    (hnd : (m.map (·.1)).Nodup) (hm : (P, g) ∈ m) : JMap.get m P = some g := by
  induction m with
  | nil => simp at hm
  | cons hd t ih =>
    simp only [List.map_cons, List.nodup_cons] at hnd
    rw [JMap.get_cons]
    rcases List.mem_cons.mp hm with h | h
    · rw [← h]; simp
    · have hne : hd.1 ≠ P := by
        intro he
        exact hnd.1 (he ▸ List.mem_map.mpr ⟨(P, g), h, rfl⟩)
      simp [hne, ih hnd.2 h]

theorem JMap.filter_key_of_nodup {α : Type} (m : JMap α) (P : String)
    (hnd : (m.map (·.1)).Nodup) :
    m.filter (fun p => decide (p.1 = P)) =
      match JMap.get m P with
      | some v => [(P, v)]
      | none => [] := by
  induction m with
  | nil => simp [JMap.get]
  | cons hd t ih =>
    obtain ⟨a, b⟩ := hd
    simp only [List.map_cons, List.nodup_cons] at hnd
    rw [JMap.get_cons]
    by_cases hk : a = P
    · subst hk
      have hnone : JMap.get t a = none := by
        rw [JMap.get_eq_none_iff]
        intro p hp he
        exact hnd.1 (he ▸ List.mem_map.mpr ⟨p, hp, rfl⟩)
      have hft : t.filter (fun p => decide (p.1 = a)) = [] := by
        rw [ih hnd.2, hnone]
      simp [List.filter_cons, hft]
    · have := ih hnd.2
      simp only [List.filter_cons]
      simp [hk, this]

theorem groupByField_loop_get (l : List Service) (acc : JMap (List Service))
    (P : String) :
    JMap.get (l.foldl groupByStep acc) P =
      match JMap.get acc P with
      | some g => some (g ++ l.filter (fun s => decide (s.name = P)))
      | none =>
        if l.filter (fun s => decide (s.name = P)) = [] then none
        else some (l.filter (fun s => decide (s.name = P))) := by
  induction l generalizing acc with
  | nil => cases h : JMap.get acc P <;> simp [h]
  | cons item t ih =>
    rw [List.foldl_cons, ih]
    by_cases hP : item.name = P
    · cases hacc : JMap.get acc item.name with
      | some g0 =>
        have hstep : JMap.get (groupByStep acc item) P = some (g0 ++ [item]) := by
          rw [← hP]
          have hss : (JMap.get acc item.name).isSome = true := by simp [hacc]
          rw [groupByStep, if_pos hss, JMap.get_set_self]
          simp [hacc]
        rw [hstep, ← hP]
        simp [List.filter_cons, hacc, List.append_assoc]
      | none =>
        have hstep : JMap.get (groupByStep acc item) P = some [item] := by
          rw [← hP]
          have hns : ¬((JMap.get acc item.name).isSome = true) := by simp [hacc]
          rw [groupByStep, if_neg hns, JMap.get_append, hacc]
          simp [JMap.get_cons]
        rw [hstep, ← hP]
        simp [List.filter_cons, hacc]
    · have hstep : JMap.get (groupByStep acc item) P = JMap.get acc P := by
        simp only [groupByStep]
        by_cases hs : (JMap.get acc item.name).isSome
        · rw [if_pos hs]
          exact JMap.get_set_ne acc item.name P _ hP
        · rw [if_neg hs, JMap.get_append]
          cases h : JMap.get acc P with
          | some v => simp
          | none => simp [JMap.get_cons, hP, JMap.get, List.find?]
      rw [hstep]
      simp [List.filter_cons, hP]

theorem groupByField_get (l : List Service) (P : String) :
    JMap.get (groupByField l) P =
      if l.filter (fun s => decide (s.name = P)) = [] then none
      else some (l.filter (fun s => decide (s.name = P))) := by
  have := groupByField_loop_get l [] P
  simpa [groupByField, JMap.get] using this

theorem groupByField_loop_keys_nodup (l : List Service)
    (acc : JMap (List Service)) (h : (acc.map (·.1)).Nodup) :
    ((l.foldl groupByStep acc).map (·.1)).Nodup := by
  induction l generalizing acc with
  | nil => simpa using h
  | cons item t ih =>
    rw [List.foldl_cons]
    apply ih
    by_cases hs : (JMap.get acc item.name).isSome
    · rw [groupByStep, if_pos hs, JMap.keys_set_of_isSome acc item.name _ hs]
      exact h
    · rw [groupByStep, if_neg hs]
      have hnone : JMap.get acc item.name = none := by
        cases hg : JMap.get acc item.name
        · rfl
        · rw [hg] at hs; simp at hs
      have hni : item.name ∉ acc.map (·.1) := by
        intro hmem
        obtain ⟨p, hp, hpe⟩ := List.mem_map.mp hmem
        exact (JMap.get_eq_none_iff acc item.name).mp hnone p hp hpe
      simp [List.nodup_append, h, hni]

theorem groupByField_keys_nodup (l : List Service) :
    ((groupByField l).map (·.1)).Nodup :=
  groupByField_loop_keys_nodup l [] (by simp)

theorem groupByField_mem (l : List Service) (P : String) (g : List Service)
    (h : (P, g) ∈ groupByField l) :
    g = l.filter (fun s => decide (s.name = P)) ∧ g ≠ [] := by
  have hget := JMap.get_of_mem_nodup _ P g (groupByField_keys_nodup l) h
  rw [groupByField_get] at hget
  by_cases hf : l.filter (fun s => decide (s.name = P)) = []
  · rw [if_pos hf] at hget; exact absurd hget (by simp)
  · rw [if_neg hf] at hget
    have := Option.some.inj hget
    exact ⟨this.symm, by rw [← this]; exact hf⟩

theorem mem_foldl_filter_ne (cs : List (String × Service)) (q : List Service)
    (s : Service) :
    s ∈ cs.foldl (fun (q2 : List Service) c =>
        q2.filter (fun x => decide (x ≠ c.2))) q ↔
      s ∈ q ∧ ∀ c ∈ cs, s ≠ c.2 := by
  induction cs generalizing q with
  | nil => simp
  | cons c t ih =>
    rw [List.foldl_cons, ih]
    simp only [List.mem_filter, List.mem_cons]
    constructor
    · rintro ⟨⟨hq, hne⟩, hall⟩
      refine ⟨hq, ?_⟩
      rintro c' (rfl | hc')
      · simpa using hne
      · exact hall c' hc'
    · rintro ⟨hq, hall⟩
      exact ⟨⟨hq, by simpa using hall c (Or.inl rfl)⟩,
        fun c' hc' => hall c' (Or.inr hc')⟩

theorem mem_deleteChildrenOf (ch : JMap (JMap Service)) (q : List Service)
    (t : Service) (s : Service) :
    s ∈ deleteChildrenOf ch q t ↔
      s ∈ q ∧ ∀ cs, JMap.get ch t.key = some cs → ∀ c ∈ cs, s ≠ c.2 := by
  rw [deleteChildrenOf]
  cases h : JMap.get ch t.key with
  | none => simp [h]
  | some cs =>
    rw [mem_foldl_filter_ne]
    constructor
    · rintro ⟨hq, hall⟩
      refine ⟨hq, fun cs' hcs' => ?_⟩
      have : cs = cs' := Option.some.inj (h ▸ hcs')
      exact this ▸ hall
    · rintro ⟨hq, hall⟩
      exact ⟨hq, hall cs rfl⟩

theorem mem_foldl_deleteChildrenOf (ch : JMap (JMap Service))
    (fs : List Service) (q : List Service) (s : Service) :
    s ∈ fs.foldl (deleteChildrenOf ch) q ↔
      s ∈ q ∧ ∀ t ∈ fs, ∀ cs, JMap.get ch t.key = some cs →
        ∀ c ∈ cs, s ≠ c.2 := by
  induction fs generalizing q with
  | nil => simp
  | cons t ts ih =>
    rw [List.foldl_cons, ih, mem_deleteChildrenOf]
    constructor
    · rintro ⟨⟨hq, hhd⟩, htl⟩
      refine ⟨hq, ?_⟩
      intro t' ht'
      rcases List.mem_cons.mp ht' with he | ht'
      · exact he ▸ hhd
      · exact htl t' ht'
    · rintro ⟨hq, hall⟩
      exact ⟨⟨hq, hall t (List.mem_cons_self t ts)⟩,
        fun t' ht' => hall t' (List.mem_cons_of_mem t ht')⟩

theorem mem_pruneRun (ch : JMap (JMap Service)) (q : List Service)
    (r : GroupRun) (s : Service) :
    s ∈ pruneRun ch q r ↔
      s ∈ q ∧ (isPruneError r.outcome = true → ∀ t ∈ r.filtered, ∀ cs,
        JMap.get ch t.key = some cs → ∀ c ∈ cs, s ≠ c.2) := by
  rw [pruneRun]
  by_cases h : isPruneError r.outcome = true
  · rw [if_pos h, mem_foldl_deleteChildrenOf]
    exact ⟨fun ⟨a, b⟩ => ⟨a, fun _ => b⟩, fun ⟨a, b⟩ => ⟨a, b h⟩⟩
  · rw [if_neg h]
    exact ⟨fun a => ⟨a, fun hh => absurd hh h⟩, fun ⟨a, _⟩ => a⟩

theorem mem_pruneNext (ch : JMap (JMap Service)) (next : List Service)
    (runs : List GroupRun) (s : Service) :
    s ∈ pruneNext ch next runs ↔
      s ∈ next ∧ ∀ r ∈ runs, isPruneError r.outcome = true →
        ∀ t ∈ r.filtered, ∀ cs, JMap.get ch t.key = some cs →
          ∀ c ∈ cs, s ≠ c.2 := by
  rw [pruneNext]
  induction runs generalizing next with
  | nil => simp
  | cons r rs ih =>
    rw [List.foldl_cons, ih, mem_pruneRun]
    constructor
    · rintro ⟨⟨hq, hhd⟩, htl⟩
      refine ⟨hq, ?_⟩
      intro r' hr'
      rcases List.mem_cons.mp hr' with he | hr'
      · exact he ▸ hhd
      · exact htl r' hr'
    · rintro ⟨hq, hall⟩
      exact ⟨⟨hq, hall r (List.mem_cons_self r rs)⟩,
        fun r' hr' => hall r' (List.mem_cons_of_mem r hr')⟩

theorem findTyping_shape (runs : List GroupRun) (e : JsError)
    (h : findTyping runs = some e) : ∃ a b, e = .typing a b := by
  rw [findTyping] at h
  induction runs with
  | nil => simp [List.findSome?] at h
  | cons r rs ih =>
    rw [List.findSome?_cons] at h
    revert h
    cases hr : r.outcome with
    | ok _ => intro h; exact ih h
    | error err =>
      cases err with
      | typing a b => intro h; exact ⟨a, b, (Option.some.inj h).symm⟩
      | templater m => intro h; exact ih h
      | system => intro h; exact ih h
      | generic => intro h; exact ih h

theorem execLevelsTraced_error_typing (reg : Registry)
    (sm : JMap (JMap (List String))) (ch : JMap (JMap Service))
    (levels : List QueueLevel) (current : List Service) (v : JMap Value)
    (tr : List TraceEntry) (e : JsError)
    (h : (execLevelsTraced reg sm ch levels current v tr).2 = .error e) :
    ∃ a b, e = .typing a b := by
  induction levels generalizing current v tr with
  | nil => simp [execLevelsTraced] at h
  | cons lvl rest ih =>
    rw [execLevelsTraced] at h
    revert h
    cases hft : findTyping (runGroups reg sm v current lvl.queueGrouped) with
    | some e' =>
      intro h
      have he : e' = e := by
        simpa [execLevel, hft] using h
      exact he ▸ findTyping_shape _ e' hft
    | none =>
      simp only [execLevel, hft]
      by_cases hq : (pruneNext ch
          (((rest.head?).map (·.queue)).getD [])
          (runGroups reg sm v current lvl.queueGrouped)).length = 0
      · simp [hq]
      · simp only [hq, if_false]
        intro h
        exact ih _ _ _ h

theorem applyOutcomes_no_write (v : JMap Value) (runs : List GroupRun)
    (k : String)
    (h : ∀ r ∈ runs, ∀ upd, r.outcome = .ok upd → JMap.lastVal upd k = none) :
    (applyOutcomes v runs).get k = JMap.get v k := by
  induction runs generalizing v with
  | nil => simp [applyOutcomes]
  | cons r rs ih =>
    rw [applyOutcomes, List.foldl_cons, ← applyOutcomes]
    cases hr : r.outcome with
    | ok upd =>
      rw [ih _ (fun r' hr' => h r' (List.mem_cons_of_mem r hr'))]
      rw [JMap.get_assign, h r (List.mem_cons_self r rs) upd hr]
    | error e =>
      exact ih _ (fun r' hr' => h r' (List.mem_cons_of_mem r hr'))

theorem applyOutcomes_write_last (v : JMap Value) (pre post : List GroupRun)
    (r : GroupRun) (upd : JMap Value) (k : String) (val : Value)
    (hr : r.outcome = .ok upd) (hv : JMap.lastVal upd k = some val)
    (hpost : ∀ r' ∈ post, ∀ upd', r'.outcome = .ok upd' →
      JMap.lastVal upd' k = none) :
    (applyOutcomes v (pre ++ r :: post)).get k = some val := by
  rw [applyOutcomes, List.foldl_append, List.foldl_cons, hr, ← applyOutcomes]
  rw [applyOutcomes_no_write _ post k hpost, JMap.get_assign, hv]

theorem applyOutcomes_drop_error (v : JMap Value) (pre post : List GroupRun)
    (r : GroupRun) (e : JsError) (h : r.outcome = .error e) :
    applyOutcomes v (pre ++ r :: post) = applyOutcomes v (pre ++ post) := by
  simp only [applyOutcomes, List.foldl_append, List.foldl_cons, h]

theorem pruneNext_drop_nonprune (ch : JMap (JMap Service))
    (next : List Service) (pre post : List GroupRun) (r : GroupRun)
    (h : isPruneError r.outcome = false) :
    pruneNext ch next (pre ++ r :: post) = pruneNext ch next (pre ++ post) := by
  simp only [pruneNext, List.foldl_append, List.foldl_cons, pruneRun, h,
    Bool.false_eq_true, if_false]

theorem buildArgs_ok (serviceName : String) (argsModel : JMap (List String))
    (v : JMap Value) (svcs : List Service) (l : List (JMap Value))
    (h : buildArgs serviceName argsModel v svcs = .ok l) :
    l = svcs.map (buildArgsRecord v) := by
  induction svcs generalizing l with
  | nil => simpa [buildArgs] using (Except.ok.inj h).symm
  | cons svc rest ih =>
    rw [buildArgs] at h
    cases hv : validateRecord serviceName argsModel (buildArgsRecord v svc) with
    | some e => rw [hv] at h; exact absurd h (by simp)
    | none =>
      rw [hv] at h
      cases hrec : buildArgs serviceName argsModel v rest with
      | error e => rw [hrec] at h; exact absurd h (by simp [Except.map])
      | ok l' =>
        rw [hrec] at h
        have h2 : buildArgsRecord v svc :: l' = l := by
          simpa [Except.map] using h
        rw [← h2, List.map_cons, ih l' hrec]

/-- The per-instance update application of the `updateVarialbes` loop: one
service instance's output record distributed through its own model. -/
def applyOwnModel (serviceModels : JMap (JMap (List String)))
    (u : JMap Value) (svc : Service) (record : JMap Value) : JMap Value :=
  match serviceModels.get svc.key with
  | none => u
  | some model =>
    model.foldl (fun (u : JMap Value) p =>
      p.2.foldl (fun (u2 : JMap Value) toName =>
        u2.set toName (record.getV p.1)) u) u

theorem buildUpdates_ok (serviceModels : JMap (JMap (List String)))
    (svcs : List Service) (results : List (JMap Value)) (init upd : JMap Value)
    (h : buildUpdates serviceModels svcs results init = .ok upd) :
    upd = (svcs.zip results).foldl
      (fun u p => applyOwnModel serviceModels u p.1 p.2) init := by
  induction svcs generalizing results init with
  | nil => simpa [buildUpdates] using (Except.ok.inj h).symm
  | cons svc rest ih =>
    rw [buildUpdates] at h
    cases hm : JMap.get serviceModels svc.key with
    | none => rw [hm] at h; exact absurd h (by simp)
    | some model =>
      rw [hm] at h
      cases results with
      | cons record rs =>
        dsimp only at h
        have := ih rs _ h
        rw [this, List.zip_cons_cons, List.foldl_cons]
        have happ : applyOwnModel serviceModels init svc record =
            model.foldl (fun (u : JMap Value) p =>
              p.2.foldl (fun (u2 : JMap Value) toName =>
                u2.set toName (record.getV p.1)) u) init := by
          simp [applyOwnModel, hm]
        rw [happ]
      | nil =>
        dsimp only at h
        by_cases he : model.isEmpty = true
        · rw [if_pos he] at h
          have := ih [] _ h
          simpa [List.zip_nil_right] using this
        · rw [if_neg he] at h
          exact absurd h (by simp)

theorem levelTrace_loop (runs : List GroupRun) (init : List TraceEntry) :
    runs.foldl (fun t r => t ++ r.trace) init =
      init ++ (runs.map (·.trace)).flatten := by
  induction runs generalizing init with
  | nil => simp
  | cons r rs ih => simp [List.foldl_cons, ih]

theorem levelTrace_eq_flatten (runs : List GroupRun) :
    levelTrace runs = (runs.map (·.trace)).flatten := by
  simpa [levelTrace] using levelTrace_loop runs []

theorem runGroup_trace_of_ok (name : String) (rv : Option ResolverValue)
    (serviceModels : JMap (JMap (List String))) (fs : List Service)
    (v : JMap Value)
    (hok : (runGroup name rv serviceModels fs v).2.isOk = true) :
    (runGroup name rv serviceModels fs v).1 =
      [⟨name, fs.map (buildArgsRecord v)⟩] := by
  cases rv with
  | none => simp [runGroup, Except.isOk, Except.toBool] at hok
  | some r =>
    rw [runGroup] at hok ⊢
    cases hba : buildArgs (((fs.head?).map (·.name)).getD "") r.argsModel v fs with
    | error e =>
      rw [hba] at hok
      simp [Except.isOk, Except.toBool] at hok
    | ok argsList =>
      have hb := buildArgs_ok _ _ _ _ _ hba
      dsimp only at hok ⊢
      cases hc : r.callback argsList <;> simp [hc, hb]

/-- C2, failing input: a provider declaring both allowed kinds for an
argument, and an argument value that is an array of strings. -/
theorem c2_validator_rejects_matching_kind :
    validateRecord "P" [("a", ["string", "string[]"])]
        [("a", Value.arrStr ["x"])] = some (JsError.typing "P" "a")
      ∧ isArrayStrings (Value.arrStr ["x"]) = true
      ∧ "string[]" ∈ ["string", "string[]"] := by
  refine ⟨rfl, rfl, by decide⟩

/-- Template whose only data declaration is a service line with an
unparseable right-hand side. -/
def c3text : String := "#data\n@foo = bar\n#view(main)\nhello"

/-- C3, counterexample: `@foo = bar` has a right-hand side that is not a
service shape, yet `parse` succeeds (no error of any kind) and the resulting
context has no services — the declaration was silently ignored. -/
theorem c3_counterexample :
    (Parser.parse c3text).map (fun r => r.2) =
      .ok (⟨[], []⟩ : ResolverContext) := by
  rfl

/-- C3, amended: a service-declaration right-hand side that
`REGEXP_SERVICE` does not accept (the brace list needs at least one entry
and the provider name at least two letters) is silently ignored — the
context is returned unchanged and no error is raised. -/
theorem c3_amended_silent_ignore :
    (∀ (ctx : ResolverContext) (name : String) (line : List Char),
        matchService line = none →
        parseDataSeviceLine ctx name line = .ok ctx)
      ∧ matchService "Px {}".data = none
      ∧ matchService "bar".data = none
      ∧ matchService "Px { a = $v; }".data =
          some ("Px", some "{ a = $v; }") := by
  refine ⟨?_, by decide, by decide, by decide⟩
  intro ctx name line h
  rw [parseDataSeviceLine, h]

theorem c3_amended_witness :
    parseDataSeviceLine ⟨[], []⟩ "foo" "bar".data = .ok ⟨[], []⟩ :=
  c3_amended_silent_ignore.1 ⟨[], []⟩ "foo" "bar".data (by decide)

/-- Context of C1's counterexample: one Reference variable `v` fed by field
`f` of service `p`, whose provider `P` actually resolves. -/
def c1ctx : ResolverContext :=
  ⟨[("v", .ref "f" "p")], [("p", ⟨"p", "P", []⟩)]⟩

def c1reg : Registry := createResolver ++
  [("P", ⟨[], fun batch =>
    .ok (batch.map (fun _ => [("f", Value.str "from_provider")]))⟩)]

/-- C1, counterexample: the caller overrides `v`, `v` is a Reference
variable, and its provider resolves successfully — the returned record maps
`v` to the provider output, not to the override (the `Object.assign` after
the batch call overwrites the seeded override). -/
theorem c1_counterexample :
    ((buildResolver c1reg c1ctx).bind
        (fun b => execute b [("v", Value.str "override")]))
      = .ok [("v", Value.str "from_provider")]
      ∧ Value.str "from_provider" ≠ Value.str "override" :=
  ⟨rfl, by decide⟩

/-- Context of C1's amended scenario: a constant and a Reference variable
owned by a reserved system provider. -/
def c1actx : ResolverContext :=
  ⟨[("c", .const "fromconst"), ("v", .ref "value" "argsvc")],
   [("argsvc", ⟨"argsvc", "Arguments", []⟩)]⟩

/-- C1, amended: at seeding, a runtime override always wins (over a declared
constant in particular); it survives to the returned record exactly when no
successfully resolving provider group writes that variable afterwards — in
particular when the owning provider is a reserved system provider, whose
invocation raises the silently swallowed system-placeholder failure. -/
theorem c1_amended_override_semantics :
    (∀ (base args : JMap Value) (k : String) (val : Value),
        JMap.lastVal args k = some val →
        (base.assign args).get k = some val)
    ∧ ((buildResolver createResolver c1actx).bind
        (fun b => execute b [("c", Value.str "oc"), ("v", Value.str "ov")]))
        = .ok [("c", Value.str "oc"), ("v", Value.str "ov")] := by
  constructor
  · intro base args k val h
    rw [JMap.get_assign, h]
  · rfl

theorem c1_amended_witness :
    JMap.get (JMap.assign [("x", Value.str "fromconst")]
        [("x", Value.str "override")]) "x" = some (Value.str "override") :=
  c1_amended_override_semantics.1 [("x", Value.str "fromconst")]
    [("x", Value.str "override")] "x" (Value.str "override") (by decide)

theorem lowerU_not_ws (c : Char) (h : isLowerUChar c = true) :
    isWsChar c = false := by
  rw [isLowerUChar] at h
  rcases (Bool.or_eq_true _ _).mp h with hl | hu
  · rw [isLowerChar, Bool.and_eq_true, decide_eq_true_eq, decide_eq_true_eq] at hl
    have hne : ∀ w : Char, w < 'a' → decide (c = w) = false := by
      intro w hw
      simp only [decide_eq_false_iff_not]
      intro he
      subst he
      exact absurd hl.1 (not_le.mpr hw)
    rw [isWsChar, hne ' ' (by decide), hne '\t' (by decide),
      hne '\n' (by decide), hne '\r' (by decide), hne '\x0b' (by decide),
      hne '\x0c' (by decide)]
    rfl
  · have he : c = '_' := of_decide_eq_true hu
    subst he
    rfl

theorem jsTrimChars_dollar_name (bl : List Char)
    (h : bl.all isLowerUChar = true) : jsTrimChars ('$' :: bl) = '$' :: bl := by
  rw [jsTrimChars]
  have h1 : ('$' :: bl).dropWhile isWsChar = '$' :: bl := by
    rw [List.dropWhile_cons]
    simp [show isWsChar '$' = false from rfl]
  rw [h1]
  have h2 : ('$' :: bl).reverse.dropWhile isWsChar = ('$' :: bl).reverse := by
    rw [List.reverse_cons]
    cases hrev : bl.reverse with
    | nil => simp [List.dropWhile_cons, show isWsChar '$' = false from rfl]
    | cons x xs =>
      have hx : x ∈ bl := by
        rw [← List.mem_reverse, hrev]
        exact List.mem_cons_self x xs
      have hxw : isWsChar x = false :=
        lowerU_not_ws x (List.all_eq_true.mp h x hx)
      simp [List.dropWhile_cons, hxw]
  rw [h2, List.reverse_reverse]

/-- C9: an alias line `$a = $b` copies `b`'s current descriptor when `b` is
defined and raises a `TemplaterError` when it is not; concretely,
`$a = 'x'` followed by `$b = $a` parses, builds and resolves with `b` bound
to the string `"x"`. -/
theorem c9_alias_copy :
    (∀ (ctx : ResolverContext) (name : String) (bl : List Char) (d : Variable),
        bl.all isLowerUChar = true →
        ctx.vars.get ⟨bl⟩ = some d →
        parseDataVariableLine ctx name ('$' :: bl) =
          .ok (ctx.registVariable name d))
    ∧ (∀ (ctx : ResolverContext) (name : String) (bl : List Char),
        bl.all isLowerUChar = true →
        ctx.vars.get ⟨bl⟩ = none →
        parseDataVariableLine ctx name ('$' :: bl) =
          .error (.templater
            ("invalid variable name \"" ++ (⟨'$' :: bl⟩ : String) ++ "\"")))
    ∧ ((Parser.parse "#data\n$a = 'x'\n$b = $a\n#view(main)\n{{b}}").bind
        (fun r => buildResolver createResolver r.2)).bind
        (fun b => execute b []) =
        .ok [("a", Value.str "x"), ("b", Value.str "x")] := by
  refine ⟨?_, ?_, rfl⟩
  · intro ctx name bl d hchars hget
    have h1 : matchStringLiteral ('$' :: bl) = false := rfl
    have h2 : matchVariable ('$' :: bl) = none := rfl
    rw [parseDataVariableLine, h1, h2]
    simp only [Bool.false_eq_true, if_false]
    rw [jsTrimChars_dollar_name bl hchars]
    simp only [List.drop_succ_cons, List.drop_zero]
    rw [hget]
  · intro ctx name bl hchars hget
    have h1 : matchStringLiteral ('$' :: bl) = false := rfl
    have h2 : matchVariable ('$' :: bl) = none := rfl
    rw [parseDataVariableLine, h1, h2]
    simp only [Bool.false_eq_true, if_false]
    rw [jsTrimChars_dollar_name bl hchars]
    simp only [List.drop_succ_cons, List.drop_zero]
    rw [hget]

theorem c9_witness :
    parseDataVariableLine ⟨[("b", .const "x")], []⟩ "a" ('$' :: "b".data) =
        .ok (ResolverContext.registVariable ⟨[("b", .const "x")], []⟩ "a"
          (.const "x"))
      ∧ parseDataVariableLine (⟨[], []⟩ : ResolverContext) "a"
          ('$' :: "b".data) =
        .error (.templater
          ("invalid variable name \"" ++ (⟨'$' :: "b".data⟩ : String) ++ "\"")) :=
  ⟨c9_alias_copy.1 ⟨[("b", .const "x")], []⟩ "a" "b".data (.const "x")
      (by decide) (by decide),
   c9_alias_copy.2.1 ⟨[], []⟩ "a" "b".data (by decide) (by decide)⟩

/-- A context none of whose variables is Reference-typed. -/
def noRefVars (ctx : ResolverContext) : Bool :=
  ctx.vars.all (fun p =>
    match p.2 with
    | .const _ => true
    | .ref _ _ => false)

theorem foldlM_const_ok {A B : Type}
    (f : A → B → Except JsError A) (good : B → Bool)
    (hf : ∀ acc p, good p = true → f acc p = .ok acc) :
    ∀ (l : List B) (init : A), (∀ p ∈ l, good p = true) →
      List.foldlM f init l = .ok init := by
  intro l
  induction l with
  | nil => intro init _; rfl
  | cons p t ih =>
    intro init hall
    rw [List.foldlM_cons, hf init p (hall p (List.mem_cons_self p t))]
    exact ih init (fun q hq => hall q (List.mem_cons_of_mem p hq))

theorem calcChildren_no_ref (ctx : ResolverContext)
    (h : noRefVars ctx = true) : calculateChildrenServices ctx = .ok [] := by
  rw [calculateChildrenServices]
  have hall := List.all_eq_true.mp h
  refine foldlM_const_ok _ (fun p =>
    match p.2 with
    | Variable.const _ => true
    | Variable.ref _ _ => false) ?_ ctx.vars [] hall
  intro acc p hp
  cases hv : p.2 with
  | const c => simp only [hv]
  | ref f svc =>
    dsimp only at hp
    rw [hv] at hp
    simp at hp

theorem roots_no_ref (ctx : ResolverContext) (h : noRefVars ctx = true) :
    calculateRootServices ctx = ctx.services := by
  rw [calculateRootServices]
  apply List.filter_eq_self.mpr
  intro p hp
  simp only [decide_eq_true_eq]
  rw [List.countP_eq_zero]
  intro d hd
  cases hg : ctx.vars.get d.variableName with
  | none => simp [isReferenceDependency, hg]
  | some v =>
    cases hv : v with
    | const c => simp [isReferenceDependency, hg, hv]
    | ref f svc =>
      obtain ⟨q, hq, hqv⟩ : ∃ q, q ∈ ctx.vars ∧ q.2 = v := by
        rw [JMap.get] at hg
        cases hf : ctx.vars.find? (fun qq => decide (qq.1 = d.variableName)) with
        | none => rw [hf] at hg; simp at hg
        | some q =>
          rw [hf] at hg
          exact ⟨q, List.mem_of_find?_eq_some hf, by simpa using hg⟩
      have hq2 := List.all_eq_true.mp h q hq
      rw [hqv, hv] at hq2
      simp at hq2

theorem queueResolving_no_children (fuel : Nat) (services : JMap Service)
    (h : services ≠ []) :
    calculateQueueResolving (fuel + 1) [] services = [services.map (·.2)] := by
  rw [calculateQueueResolving]
  have hne : services.isEmpty = false := by
    cases services with
    | nil => exact absurd rfl h
    | cons a t => rfl
  rw [hne]
  simp only [Bool.false_eq_true, if_false]
  have hnext : ∀ (l : JMap Service) (acc : JMap Service),
      l.foldl (fun (acc : JMap Service) p =>
        match JMap.get ([] : JMap (JMap Service)) p.1 with
        | none => acc
        | some childs =>
          childs.foldl (fun (a : JMap Service) c => a.set c.1 c.2) acc)
        acc = acc := by
    intro l
    induction l with
    | nil => intro acc; rfl
    | cons a t ih => intro acc; exact ih acc
  rw [hnext]
  cases fuel <;> rfl

/-- C8, amended: for a Resolution Context with no Reference variables and at
least one service instance, every successfully built plan has exactly one
level, holding all service instances in table order (the empty context
instead yields a plan with no levels at all, see the counterexample). -/
theorem c8_single_level (reg : Registry) (ctx : ResolverContext)
    (b : BuiltExecutor) (h : noRefVars ctx = true) (hs : ctx.services ≠ [])
    (hb : buildResolver reg ctx = .ok b) :
    b.queueResolving.map (·.queue) = [ctx.services.map (·.2)] := by
  rw [buildResolver] at hb
  cases hva : validateAvailabilityServices reg ctx.services with
  | some e => rw [hva] at hb; exact absurd hb (by simp)
  | none =>
    rw [hva] at hb
    cases hvp : validateServiceProvideNames reg ctx.services with
    | some e => rw [hvp] at hb; exact absurd hb (by simp)
    | none =>
      rw [hvp, calcChildren_no_ref ctx h] at hb
      dsimp only at hb
      rw [roots_no_ref ctx h] at hb
      have hq := queueResolving_no_children ctx.services.length ctx.services hs
      rw [hq] at hb
      have := (Except.ok.inj hb).symm
      rw [this]
      simp

/-- C8, counterexample: the empty Resolution Context has no Reference
variables, builds successfully, and its Execution Plan has zero levels, not
exactly one. -/
theorem c8_counterexample :
    (buildResolver createResolver ⟨[], []⟩).map
        (fun b => b.queueResolving.length) = .ok 0
      ∧ (buildResolver createResolver ⟨[], []⟩).map
        (fun b => b.queueResolving.length) ≠ .ok 1 := by
  constructor
  · rfl
  · intro hcontra
    have h0 : (buildResolver createResolver ⟨[], []⟩).map
        (fun b => b.queueResolving.length) = .ok 0 := rfl
    exact absurd (h0.symm.trans hcontra) (by decide)

/-- Witness context: one service and no variables. -/
def c8wctx : ResolverContext := ⟨[], [("s", ⟨"s", "Arguments", []⟩)]⟩

/-- Witness plan for `c8wctx`. -/
def c8wbuilt : BuiltExecutor :=
  { resolvers := createResolver
    variableBase := []
    serviceModels := []
    queueResolving :=
      [⟨[⟨"s", "Arguments", []⟩], [("Arguments", [⟨"s", "Arguments", []⟩])]⟩]
    childrenServices := [] }

theorem c8_witness :
    buildResolver createResolver c8wctx = .ok c8wbuilt
      ∧ c8wbuilt.queueResolving.map (·.queue) = [c8wctx.services.map (·.2)] :=
  ⟨rfl, c8_single_level createResolver c8wctx c8wbuilt (by decide)
    (by decide) rfl⟩

/-- C4: a `TypingError` raised by any provider group of the level being
executed makes the whole run fail with that error, whatever levels would
have followed (so no later level ever writes into a returned record — there
is none), and the same holds for a full `execute` call. -/
theorem c4_typing_error_fatal :
    (∀ (reg : Registry) (sm : JMap (JMap (List String)))
        (ch : JMap (JMap Service)) (lvl : QueueLevel) (rest : List QueueLevel)
        (current : List Service) (v : JMap Value) (tr : List TraceEntry)
        (e : JsError),
        findTyping (runGroups reg sm v current lvl.queueGrouped) = some e →
        execLevelsTraced reg sm ch (lvl :: rest) current v tr =
          (tr ++ levelTrace (runGroups reg sm v current lvl.queueGrouped),
            .error e))
    ∧ (∀ (b : BuiltExecutor) (args : JMap Value) (lvl : QueueLevel)
        (rest : List QueueLevel) (e : JsError),
        b.queueResolving = lvl :: rest →
        findTyping (runGroups b.resolvers b.serviceModels
          (b.variableBase.assign args) lvl.queue lvl.queueGrouped) = some e →
        execute b args = .error e) := by
  have hmain : ∀ (reg : Registry) (sm : JMap (JMap (List String)))
      (ch : JMap (JMap Service)) (lvl : QueueLevel) (rest : List QueueLevel)
      (current : List Service) (v : JMap Value) (tr : List TraceEntry)
      (e : JsError),
      findTyping (runGroups reg sm v current lvl.queueGrouped) = some e →
      execLevelsTraced reg sm ch (lvl :: rest) current v tr =
        (tr ++ levelTrace (runGroups reg sm v current lvl.queueGrouped),
          .error e) := by
    intro reg sm ch lvl rest current v tr e h
    rw [execLevelsTraced, execLevel]
    dsimp only
    rw [h]
  refine ⟨hmain, ?_⟩
  intro b args lvl rest e hq hf
  rw [execute, executeTraced, hq]
  simp only [hmain b.resolvers b.serviceModels b.childrenServices lvl rest
    lvl.queue (b.variableBase.assign args) [] e hf]

/-- Registry of the C4 witness: provider `T` declares a mandatory string
argument, and the service supplies it from an absent variable. -/
def c4reg : Registry :=
  [("T", ⟨[("a", ["string"])], fun _ => .ok []⟩),
   ("U", ⟨[], fun batch => .ok (batch.map (fun _ => [("g", Value.str "u")]))⟩)]

def c4svc : Service := ⟨"t", "T", [⟨"a", "a", "x"⟩]⟩

def c4lvl : QueueLevel := ⟨[c4svc], [("T", [c4svc])]⟩

def c4svc2 : Service := ⟨"u", "U", []⟩

def c4lvl2 : QueueLevel := ⟨[c4svc2], [("U", [c4svc2])]⟩

theorem c4_witness :
    execLevelsTraced c4reg [] [] [c4lvl, c4lvl2] [c4svc] [] [] =
      ([], .error (.typing "T" "a")) := by
  rw [c4_typing_error_fatal.1 c4reg [] [] c4lvl [c4lvl2] [c4svc] [] []
    (.typing "T" "a") (by decide)]
  rfl

theorem c6_system_error_skipped (reg : Registry)
    (sm : JMap (JMap (List String))) (ch : JMap (JMap Service))
    (v : JMap Value) (current next : List Service)
    (groups : JMap (List Service)) (pre post : List GroupRun) (r : GroupRun)
    (hdec : runGroups reg sm v current groups = pre ++ r :: post)
    (hsys : r.outcome = .error .system)
    (hnt : findTyping (runGroups reg sm v current groups) = none) :
    (execLevel reg sm ch v current next groups).2 =
      .ok (applyOutcomes v (pre ++ post), pruneNext ch next (pre ++ post)) := by
  rw [execLevel]
  dsimp only
  rw [hnt, hdec]
  rw [applyOutcomes_drop_error v pre post r _ hsys,
    pruneNext_drop_nonprune ch next pre post r (by rw [hsys]; rfl)]

def c6svc : Service := ⟨"argsvc", "Arguments", []⟩

def c6next : Service := ⟨"child", "P", []⟩

theorem c6_witness :
    (execLevel createResolver [] [("argsvc", [("child", c6next)])] []
        [c6svc] [c6next] [("Arguments", [c6svc])]).2 =
      .ok ([], [c6next]) := by
  rw [c6_system_error_skipped createResolver []
    [("argsvc", [("child", c6next)])] [] [c6svc] [c6next]
    [("Arguments", [c6svc])] [] []
    ⟨[c6svc], [⟨"Arguments", [[]]⟩], .error .system⟩ (by decide) rfl
    (by decide)]
  rfl

/-- C5: (i) the only errors that ever escape the level loop are
`TypingError`s — a generic provider failure never fails the execution;
(ii) a service missing from the pruned next candidate set was removed by
some failing (prune-classified) group of which it is a direct child — no
transitive removal; (iii) every direct child of a failing group's service
instances is removed; (iv) a sibling group's successful update for a
variable no later group writes ends up in the value record. -/
theorem c5_generic_error_isolation :
    (∀ (reg : Registry) (sm : JMap (JMap (List String)))
        (ch : JMap (JMap Service)) (levels : List QueueLevel)
        (current : List Service) (v : JMap Value) (tr : List TraceEntry)
        (e : JsError),
        (execLevelsTraced reg sm ch levels current v tr).2 = .error e →
        ∃ a b, e = .typing a b)
    ∧ (∀ (ch : JMap (JMap Service)) (next : List Service)
        (runs : List GroupRun) (s : Service),
        s ∈ next → s ∉ pruneNext ch next runs →
        ∃ r ∈ runs, isPruneError r.outcome = true ∧ ∃ t ∈ r.filtered,
          ∃ cs, JMap.get ch t.key = some cs ∧ ∃ c ∈ cs, s = c.2)
    ∧ (∀ (ch : JMap (JMap Service)) (next : List Service)
        (runs : List GroupRun) (r : GroupRun) (t : Service)
        (cs : JMap Service) (c : String × Service),
        r ∈ runs → isPruneError r.outcome = true → t ∈ r.filtered →
        JMap.get ch t.key = some cs → c ∈ cs →
        c.2 ∉ pruneNext ch next runs)
    ∧ (∀ (v : JMap Value) (pre post : List GroupRun) (r : GroupRun)
        (upd : JMap Value) (k : String) (val : Value),
        r.outcome = .ok upd → JMap.lastVal upd k = some val →
        (∀ r' ∈ post, ∀ upd', r'.outcome = .ok upd' →
          JMap.lastVal upd' k = none) →
        (applyOutcomes v (pre ++ r :: post)).get k = some val) := by
  refine ⟨?_, ?_, ?_, ?_⟩
  · intro reg sm ch levels current v tr e h
    exact execLevelsTraced_error_typing reg sm ch levels current v tr e h
  · intro ch next runs s hnext hnot
    by_contra hcon
    push_neg at hcon
    exact hnot ((mem_pruneNext ch next runs s).mpr ⟨hnext, hcon⟩)
  · intro ch next runs r t cs c hr hpr ht hcs hc
    intro hmem
    rw [mem_pruneNext] at hmem
    exact hmem.2 r hr hpr t ht cs hcs c hc rfl
  · intro v pre post r upd k val hr hv hpost
    exact applyOutcomes_write_last v pre post r upd k val hr hv hpost

def c5childSvc : Service := ⟨"c", "C", []⟩

def c5otherSvc : Service := ⟨"d", "D", []⟩

def c5failSvc : Service := ⟨"p", "P", []⟩

def c5okSvc : Service := ⟨"q", "Q", []⟩

def c5ch : JMap (JMap Service) := [("p", [("c", c5childSvc)])]

def c5runFail : GroupRun := ⟨[c5failSvc], [⟨"P", [[]]⟩], .error .generic⟩

def c5runOk : GroupRun :=
  ⟨[c5okSvc], [⟨"Q", [[]]⟩], .ok [("k", Value.str "val")]⟩

def c5runs : List GroupRun := [c5runFail, c5runOk]

def c5next : List Service := [c5childSvc, c5otherSvc]

theorem c5_witness :
    (∃ a b, (JsError.typing "T" "a") = JsError.typing a b)
      ∧ (∃ r ∈ c5runs, isPruneError r.outcome = true ∧ ∃ t ∈ r.filtered,
          ∃ cs, JMap.get c5ch t.key = some cs ∧
            ∃ c ∈ cs, c5childSvc = c.2)
      ∧ ("c", c5childSvc).2 ∉ pruneNext c5ch c5next c5runs
      ∧ (applyOutcomes [] ([c5runFail] ++ c5runOk :: [])).get "k" =
          some (Value.str "val") :=
  ⟨c5_generic_error_isolation.1 c4reg [] [] [c4lvl] [c4svc] [] []
      (.typing "T" "a") (by decide),
   c5_generic_error_isolation.2.1 c5ch c5next c5runs c5childSvc (by decide)
      (by decide),
   c5_generic_error_isolation.2.2.1 c5ch c5next c5runs c5runFail c5failSvc
      [("c", c5childSvc)] ("c", c5childSvc) (by decide) (by decide)
      (by decide) (by decide) (by decide),
   c5_generic_error_isolation.2.2.2 [] [c5runFail] [] c5runOk
      [("k", Value.str "val")] "k" (Value.str "val") (by decide) (by decide)
      (fun r' hr' => absurd hr' (List.not_mem_nil r'))⟩

/-- C10: a provider-name group whose filtered service list is empty still
invokes the provider callback, with an empty batch, and contributes no
value-record updates whatever the callback does; in particular a group all
of whose instances were pruned from the candidate set produces exactly such
a run. -/
theorem c10_empty_batch_invocation :
    (∀ (name : String) (r : ResolverValue)
        (sm : JMap (JMap (List String))) (v : JMap Value),
        runGroup name (some r) sm [] v =
          ([⟨name, []⟩], (r.callback []).map (fun _ => ([] : JMap Value))))
    ∧ (∀ (reg : Registry) (sm : JMap (JMap (List String))) (v : JMap Value)
        (current : List Service) (groups : JMap (List Service))
        (n : String) (svcs : List Service) (r : ResolverValue),
        (n, svcs) ∈ groups → JMap.get reg n = some r →
        svcs.all (fun s => !(current.contains s)) = true →
        (⟨[], [⟨n, []⟩],
          (r.callback []).map (fun _ => ([] : JMap Value))⟩ : GroupRun) ∈
          runGroups reg sm v current groups) := by
  have hrun : ∀ (name : String) (r : ResolverValue)
      (sm : JMap (JMap (List String))) (v : JMap Value),
      runGroup name (some r) sm [] v =
        ([⟨name, []⟩], (r.callback []).map (fun _ => ([] : JMap Value))) := by
    intro name r sm v
    rw [runGroup]
    cases hc : r.callback [] with
    | error e => simp [buildArgs, hc, Except.map]
    | ok results => simp [buildArgs, hc, Except.map, buildUpdates]
  refine ⟨hrun, ?_⟩
  intro reg sm v current groups n svcs r hmem hget hall
  have hfs : svcs.filter (fun s => current.contains s) = [] := by
    rw [List.filter_eq_nil_iff]
    intro s hs
    have := List.all_eq_true.mp hall s hs
    simpa using this
  rw [runGroups]
  apply List.mem_map.mpr
  refine ⟨(n, svcs), hmem, ?_⟩
  dsimp only
  rw [hfs, hget, hrun]

def c10svc : Service := ⟨"s", "P", []⟩

def c10rv : ResolverValue := ⟨[], fun _ => .ok [[]]⟩

def c10reg : Registry := [("P", c10rv)]

theorem c10_witness :
    (⟨[], [⟨"P", []⟩], .ok []⟩ : GroupRun) ∈
      runGroups c10reg [] [] [] [("P", [c10svc])] := by
  have h := c10_empty_batch_invocation.2 c10reg [] [] [] [("P", [c10svc])]
    "P" [c10svc] c10rv (by decide) rfl (by decide)
  exact h

def c7svcP1 : Service := ⟨"p_one", "Pone", []⟩

def c7svcP2 : Service := ⟨"p_two", "Ptwo", []⟩

def c7svcB : Service := ⟨"b", "Q", [⟨"x", "x", "v_two"⟩]⟩

def c7svcC : Service := ⟨"c", "Q", [⟨"y", "y", "v_one"⟩]⟩

/-- Context of C7's counterexample: services declared in the order
`p_one, p_two, b, c`; `b` depends on `p_two` and `c` on `p_one`, so level 1
is discovered as `[c, b]`, the reverse of their declaration order. -/
def c7ctx : ResolverContext :=
  ⟨[("v_one", .ref "f" "p_one"), ("v_two", .ref "f" "p_two"),
    ("w_one", .ref "g" "b"), ("w_two", .ref "g" "c")],
   [("p_one", c7svcP1), ("p_two", c7svcP2), ("b", c7svcB), ("c", c7svcC)]⟩

def c7reg : Registry := createResolver ++
  [("Pone", ⟨[], fun batch =>
      .ok (batch.map (fun _ => [("f", Value.str "one")]))⟩),
   ("Ptwo", ⟨[], fun batch =>
      .ok (batch.map (fun _ => [("f", Value.str "two")]))⟩),
   ("Q", ⟨[], fun batch =>
      .ok (batch.map (fun _ => [("g", Value.str "q")]))⟩)]

/-- C7, counterexample: in this failure-free execution the two `Q` instances
are declared in the order `b, c`, but the batch delivered to `Q` at level 1
is `[c's record, b's record]` — the plan's queue order, not declaration
order. -/
theorem c7_counterexample :
    ((buildResolver c7reg c7ctx).map (fun b => (executeTraced b []).1)) =
        .ok [⟨"Pone", [[]]⟩, ⟨"Ptwo", [[]]⟩,
          ⟨"Q", [[("y", Value.str "one")], [("x", Value.str "two")]]⟩]
      ∧ (c7ctx.services.map (·.2)).filter (fun s => decide (s.name = "Q")) =
          [c7svcB, c7svcC]
      ∧ ([([("y", Value.str "one")] : JMap Value), [("x", Value.str "two")]] ≠
          [([("x", Value.str "two")] : JMap Value), [("y", Value.str "one")]]) :=
  ⟨rfl, by decide, by decide⟩

theorem flatten_map_singleton {A B : Type} (l : List A) (f : A → B) :
    (l.map (fun x => [f x])).flatten = l.map f := by
  induction l with
  | nil => rfl
  | cons a t ih => simp [ih]

/-- C7, amended: in a failure-free level (nothing pruned, every group
settles successfully), each provider name with instances in the level's
queue is invoked exactly once, with the batch of exactly those instances'
argument records in queue order (declaration order for the root level); and
every successful group's updates distribute each instance's outputs through
that instance's own field-to-variable model. -/
theorem c7_amended_batching :
    (∀ (reg : Registry) (sm : JMap (JMap (List String))) (v : JMap Value)
        (current : List Service) (queue : List Service),
        queue.all (fun s => current.contains s) = true →
        (runGroups reg sm v current (groupByField queue)).all
          (fun r => r.outcome.isOk) = true →
        ∀ P : String,
          queue.filter (fun s => decide (s.name = P)) ≠ [] →
          (levelTrace (runGroups reg sm v current (groupByField queue))).filter
              (fun t => decide (t.provider = P)) =
            [⟨P, (queue.filter (fun s => decide (s.name = P))).map
              (buildArgsRecord v)⟩])
    ∧ (∀ (sm : JMap (JMap (List String))) (svcs : List Service)
        (results : List (JMap Value)) (init upd : JMap Value),
        buildUpdates sm svcs results init = .ok upd →
        upd = (svcs.zip results).foldl
          (fun u p => applyOwnModel sm u p.1 p.2) init) := by
  constructor
  · intro reg sm v current queue hcur hok P hP
    have hfs : ∀ g ∈ groupByField queue,
        g.2.filter (fun s => current.contains s) = g.2 := by
      intro g hg
      apply List.filter_eq_self.mpr
      intro s hs
      have hgf := (groupByField_mem queue g.1 g.2 hg).1
      have hsq : s ∈ queue := by
        rw [hgf] at hs
        exact (List.mem_filter.mp hs).1
      exact List.all_eq_true.mp hcur s hsq
    have htr : ∀ g ∈ groupByField queue,
        (runGroup g.1 (JMap.get reg g.1) sm
          (g.2.filter (fun s => current.contains s)) v).1 =
        [⟨g.1, g.2.map (buildArgsRecord v)⟩] := by
      intro g hg
      have hmem : (⟨g.2.filter (fun s => current.contains s),
          (runGroup g.1 (JMap.get reg g.1) sm
            (g.2.filter (fun s => current.contains s)) v).1,
          (runGroup g.1 (JMap.get reg g.1) sm
            (g.2.filter (fun s => current.contains s)) v).2⟩ : GroupRun) ∈
          runGroups reg sm v current (groupByField queue) :=
        List.mem_map.mpr ⟨g, hg, rfl⟩
      have hokg := List.all_eq_true.mp hok _ hmem
      rw [runGroup_trace_of_ok _ _ _ _ _ hokg, hfs g hg]
    rw [levelTrace_eq_flatten]
    have hmap : (runGroups reg sm v current (groupByField queue)).map (·.trace)
        = (groupByField queue).map
            (fun g => [(⟨g.1, g.2.map (buildArgsRecord v)⟩ : TraceEntry)]) := by
      rw [runGroups, List.map_map]
      apply List.map_congr_left
      intro g hg
      exact htr g hg
    rw [hmap, flatten_map_singleton, List.filter_map]
    have hpred : ((fun t : TraceEntry => decide (t.provider = P)) ∘
        (fun g : String × List Service =>
          (⟨g.1, g.2.map (buildArgsRecord v)⟩ : TraceEntry))) =
        (fun g : String × List Service => decide (g.1 = P)) := rfl
    rw [hpred, JMap.filter_key_of_nodup _ P (groupByField_keys_nodup queue),
      groupByField_get, if_neg hP]
    rfl
  · intro sm svcs results init upd h
    exact buildUpdates_ok sm svcs results init upd h

def c7wX : Service := ⟨"x", "P", [⟨"a", "a", "v"⟩]⟩

def c7wY : Service := ⟨"y", "P", [⟨"a", "a", "v"⟩]⟩

def c7wreg : Registry :=
  [("P", ⟨[], fun batch =>
    .ok (batch.map (fun _ => [("f", Value.str "o")]))⟩)]

def c7wsm : JMap (JMap (List String)) :=
  [("x", [("f", ["vx"])]), ("y", [("f", ["vy"])])]

theorem c7_amended_witness :
    (levelTrace (runGroups c7wreg c7wsm [("v", Value.str "w")] [c7wX, c7wY]
        (groupByField [c7wX, c7wY]))).filter
        (fun t => decide (t.provider = "P")) =
      [⟨"P", [[("a", Value.str "w")], [("a", Value.str "w")]]⟩]
    ∧ ([("vx", Value.str "o")] : JMap Value) =
        (([c7wX].zip [[("f", Value.str "o")]]).foldl
          (fun u p => applyOwnModel c7wsm u p.1 p.2) []) :=
  ⟨by
    rw [c7_amended_batching.1 c7wreg c7wsm [("v", Value.str "w")]
      [c7wX, c7wY] [c7wX, c7wY] (by decide) (by decide) "P" (by decide)]
    rfl,
   c7_amended_batching.2 c7wsm [c7wX] [[("f", Value.str "o")]] []
    [("vx", Value.str "o")] (by decide)⟩
